import Mathlib

/-!
Verification of `qiskit/circuit/parametervector.py` (`ParameterVector`), the
named, resizable sequence of identity-bearing parameter elements.

The embedding is shallow: Python lists become `List`, the 128-bit UUID integers
become `Nat` with the explicit `2 ^ 128` range check performed by the Python
standard library's `uuid.UUID(int=...)` constructor, and operations that can
raise return `Option` (with `none` for the raised exception).  The `uuid4()`
entropy draw in `__init__` is made explicit as a `root` argument, so every
definition is a pure function of its inputs.
-/

namespace ParameterVectorSpec

/-- The size of the 128-bit identity space. -/
def UUID_SPACE : Nat := 2 ^ 128

/-- Python stdlib `uuid.UUID(int=x)`: accepts exactly the 128-bit range
`0 <= x < 2^128` and raises `ValueError` otherwise (modelled as `none`). -/
def UUID (x : Nat) : Option Nat :=
  if x < UUID_SPACE then some x else none

/-- Modelled from the spec: `ParameterVectorElement` lives in the native
acceleration layer (`qiskit._accelerate.circuit`, not part of this source
fragment); per the spec it is an opaque value type constructible from
`(vector_ref, index, identity)`, storing those fields verbatim.  The weak
owner back-reference is modelled by the owning vector's name. -/
structure ParameterVectorElement where
  owner : String
  index : Nat
  identity : Nat
deriving DecidableEq, Repr

/-- `ParameterVectorElement(self, i, UUID(int=root + i))`: element creation as
performed by `__init__` and `resize`; fails when the `UUID` constructor
raises. -/
def mkElement (owner : String) (root : Nat) (i : Nat) : Option ParameterVectorElement :=
  (UUID (root + i)).map fun u => ⟨owner, i, u⟩

/-- The list comprehension `[ParameterVectorElement(self, i, UUID(int=root + i))
for i in is]`, built left to right, failing at the first element whose `UUID`
constructor raises. -/
def buildElems (owner : String) (root : Nat) : List Nat → Option (List ParameterVectorElement)
  | [] => some []
  | i :: is => do
      let e ← mkElement owner root i
      let rest ← buildElems owner root is
      return e :: rest

/-- `ParameterVector.__slots__ = ("_name", "_params", "_root_uuid")`, with
`_root_uuid` as its 128-bit integer value. -/
structure ParameterVector where
  _name : String
  _root_uuid : Nat
  _params : List ParameterVectorElement
deriving DecidableEq, Repr

/-- `__init__(self, name, length=0)`, with the `uuid4()` draw passed in as
`root`.  `range(length)` of a negative `length` is empty, hence `toNat`. -/
def ParameterVector.init (name : String) (root : Nat) (length : Int) :
    Option ParameterVector :=
  (buildElems name root (List.range length.toNat)).map fun ps =>
    { _name := name, _root_uuid := root, _params := ps }

/-- `__len__`. -/
def ParameterVector.len (pv : ParameterVector) : Nat :=
  pv._params.length

/-- Python slice start for `lst[k:]` on a list of length `L`: a negative `k`
counts from the end and clamps at `0`; a non-negative `k` clamps at `L`. -/
def sliceStart (L : Nat) (k : Int) : Nat :=
  if k < 0 then ((L : Int) + k).toNat else min k.toNat L

/-- `__getitem__(self, key)` for an integer key, with Python's list-index
semantics: a negative key counts from the end, and an index out of
`[-len, len)` raises `IndexError` (modelled as `none`). -/
def ParameterVector.getItem (pv : ParameterVector) (key : Int) :
    Option ParameterVectorElement :=
  let j : Int := if key < 0 then key + pv._params.length else key
  if 0 ≤ j then pv._params.get? j.toNat else none

/-- `resize(self, length)`: grows by appending freshly derived elements for
the indices `len .. length-1` (failing if a `UUID` constructor call raises),
otherwise executes `del self._params[length:]` with Python slice semantics. -/
def ParameterVector.resize (pv : ParameterVector) (length : Int) :
    Option ParameterVector :=
  if (pv._params.length : Int) < length then
    (buildElems pv._name pv._root_uuid
        (List.range' pv._params.length (length.toNat - pv._params.length))).map
      fun new => { pv with _params := pv._params ++ new }
  else
    some { pv with _params := pv._params.take (sliceStart pv._params.length length) }

/-- `__getstate__`: `(self._name, [p.__getstate__() for p in self._params],
self._root_uuid)`.  Modelled from the spec: the per-element payload is the
`(owner-link, index, identity)` triple, i.e. the element's own fields. -/
def ParameterVector.getState (pv : ParameterVector) :
    String × List ParameterVectorElement × Nat :=
  (pv._name, pv._params, pv._root_uuid)

/-- `__setstate__`: unpacks the triple and rebuilds each element as
`ParameterVectorElement(*p)` directly from its stored payload; nothing is
re-derived from `_root_uuid`. -/
def ParameterVector.setState (s : String × List ParameterVectorElement × Nat) :
    ParameterVector :=
  { _name := s.1, _root_uuid := s.2.2, _params := s.2.1 }

/-- The element list produced by a successful `__init__`. -/
def initElems (name : String) (root : Nat) (length : Int) :
    List ParameterVectorElement :=
  (List.range length.toNat).map fun i => ⟨name, i, root + i⟩

/-- The freshly derived elements appended by a successful growing `resize`. -/
def ParameterVector.grown (pv : ParameterVector) (length : Int) :
    List ParameterVectorElement :=
  (List.range' pv._params.length (length.toNat - pv._params.length)).map
    fun i => ⟨pv._name, i, pv._root_uuid + i⟩

/-- The state after a non-growing `resize`, i.e. `del self._params[length:]`. -/
def ParameterVector.shrunk (pv : ParameterVector) (length : Int) : ParameterVector :=
  { pv with _params := pv._params.take (sliceStart pv._params.length length) }

/-- The state after a successful growing `resize`. -/
def ParameterVector.extended (pv : ParameterVector) (length : Int) : ParameterVector :=
  { pv with _params := pv._params ++ pv.grown length }

/-- The states reachable through the public constructor and `resize`, with the
non-negative arguments the spec's claims quantify over. -/
inductive Reachable : ParameterVector → Prop where
  | construct (name : String) (root : Nat) (length : Int) (pv : ParameterVector) :
      0 ≤ length → ParameterVector.init name root length = some pv → Reachable pv
  | resize (pv : ParameterVector) (length : Int) (pv' : ParameterVector) :
      Reachable pv → 0 ≤ length → pv.resize length = some pv' → Reachable pv'

/-- The determinism invariant maintained by construction and `resize`: every
live element carries its position as `index`, its identity is
`root_uuid + index`, and that sum fits the 128-bit identity space. -/
def Valid (pv : ParameterVector) : Prop :=
  ∀ (i : Nat) (h : i < pv._params.length),
    pv._params[i].identity = pv._root_uuid + i ∧
    pv._params[i].index = i ∧
    pv._root_uuid + i < UUID_SPACE

/-- A concrete vector: `ParameterVector.init "theta" 7 3`. -/
def pvW : ParameterVector :=
  { _name := "theta", _root_uuid := 7,
    _params := [⟨"theta", 0, 7⟩, ⟨"theta", 1, 8⟩, ⟨"theta", 2, 9⟩] }

/-- The vector `pvW` after `resize(5)`. -/
def pvW5 : ParameterVector :=
  { _name := "theta", _root_uuid := 7,
    _params := [⟨"theta", 0, 7⟩, ⟨"theta", 1, 8⟩, ⟨"theta", 2, 9⟩,
                ⟨"theta", 3, 10⟩, ⟨"theta", 4, 11⟩] }

example : ParameterVector.init "theta" 7 3 = some pvW := by rfl
example : pvW.resize 5 = some pvW5 := by rfl
example : pvW.getItem (-1) = some ⟨"theta", 2, 9⟩ := by rfl
example : pvW.resize (-1) =
    some { _name := "theta", _root_uuid := 7,
           _params := [⟨"theta", 0, 7⟩, ⟨"theta", 1, 8⟩] } := by rfl
example : ParameterVector.init "x" 7 (-1) =
    some { _name := "x", _root_uuid := 7, _params := [] } := by rfl
example : mkElement "x" (2 ^ 128 - 1) 1 = none := by rfl
example : pvW.resize 5 =
    some { _name := "theta", _root_uuid := 7,
           _params := [⟨"theta", 0, 7⟩, ⟨"theta", 1, 8⟩, ⟨"theta", 2, 9⟩,
                       ⟨"theta", 3, 10⟩, ⟨"theta", 4, 11⟩] } := by rfl
example : pvW.resize 3 = some pvW := by rfl

/-! ### Characterization lemmas for the embedded operations -/

theorem mkElement_eq_some {o : String} {r i : Nat} {e : ParameterVectorElement} :
    mkElement o r i = some e ↔ r + i < UUID_SPACE ∧ e = ⟨o, i, r + i⟩ := by
  unfold mkElement UUID
  by_cases h : r + i < UUID_SPACE <;> simp [h, eq_comm]

theorem buildElems_eq_some {o : String} {r : Nat} (is : List Nat)
    (h : ∀ i ∈ is, r + i < UUID_SPACE) :
    buildElems o r is = some (is.map fun i => ⟨o, i, r + i⟩) := by
  induction is with
  | nil => rfl
  | cons i is ih =>
      have hi : r + i < UUID_SPACE := h i (by simp)
      simp [buildElems, mkElement, UUID, hi,
        ih fun j hj => h j (List.mem_cons_of_mem _ hj)]

theorem buildElems_some {o : String} {r : Nat} {is : List Nat}
    {l : List ParameterVectorElement} (h : buildElems o r is = some l) :
    l = is.map (fun i => ⟨o, i, r + i⟩) ∧ ∀ i ∈ is, r + i < UUID_SPACE := by
  induction is generalizing l with
  | nil =>
      simp only [buildElems] at h
      simp [← Option.some_inj.mp h]
  | cons i is ih =>
      simp only [buildElems, bind, Option.bind_eq_some] at h
      obtain ⟨e, he, rest, hrest, hl⟩ := h
      obtain ⟨hlt, hee⟩ := mkElement_eq_some.mp he
      obtain ⟨hrm, hall⟩ := ih hrest
      subst hee hrm
      refine ⟨by simp [← Option.some_inj.mp hl], ?_⟩
      intro j hj
      rcases List.mem_cons.mp hj with hj | hj
      · exact hj ▸ hlt
      · exact hall j hj

theorem getElem_congr {α : Type} {l l' : List α} (h : l = l') {i : Nat}
    (hi : i < l.length) (hi' : i < l'.length) : l[i] = l'[i] := by
  subst h; rfl

theorem init_some {name : String} {root : Nat} {length : Int} {pv : ParameterVector}
    (h : ParameterVector.init name root length = some pv) :
    pv._name = name ∧ pv._root_uuid = root ∧
    pv._params = initElems name root length ∧
    ∀ i < length.toNat, root + i < UUID_SPACE := by
  unfold ParameterVector.init at h
  rw [Option.map_eq_some'] at h
  obtain ⟨l, hb, hf⟩ := h
  obtain ⟨hl, hall⟩ := buildElems_some hb
  subst hf
  subst hl
  refine ⟨rfl, rfl, rfl, ?_⟩
  intro i hi
  exact hall i (List.mem_range.mpr hi)

theorem resize_grow_some {pv : ParameterVector} {length : Int} {pv' : ParameterVector}
    (hgt : (pv._params.length : Int) < length)
    (h : pv.resize length = some pv') :
    pv'._name = pv._name ∧ pv'._root_uuid = pv._root_uuid ∧
    pv'._params = pv._params ++ pv.grown length ∧
    ∀ i, pv._params.length ≤ i → i < length.toNat → pv._root_uuid + i < UUID_SPACE := by
  unfold ParameterVector.resize at h
  rw [if_pos hgt, Option.map_eq_some'] at h
  obtain ⟨l, hb, hf⟩ := h
  obtain ⟨hl, hall⟩ := buildElems_some hb
  subst hf
  subst hl
  refine ⟨rfl, rfl, rfl, ?_⟩
  intro i hle hlt
  exact hall i (List.mem_range'_1.mpr ⟨hle, by omega⟩)

theorem resize_shrink_eq {pv : ParameterVector} {length : Int}
    (hle : length ≤ (pv._params.length : Int)) :
    pv.resize length = some (pv.shrunk length) := by
  unfold ParameterVector.resize ParameterVector.shrunk
  rw [if_neg (by omega)]

theorem resize_grow_succeeds {pv : ParameterVector} {length : Int}
    (hgt : (pv._params.length : Int) < length)
    (hall : ∀ i, pv._params.length ≤ i → i < length.toNat →
      pv._root_uuid + i < UUID_SPACE) :
    pv.resize length = some (pv.extended length) := by
  unfold ParameterVector.resize ParameterVector.extended ParameterVector.grown
  rw [if_pos hgt, buildElems_eq_some _ ?_]
  · rfl
  · intro i hi
    obtain ⟨h1, h2⟩ := List.mem_range'_1.mp hi
    exact hall i h1 (by omega)

theorem len_eq (pv : ParameterVector) : pv.len = pv._params.length := rfl

theorem shrunk_name (pv : ParameterVector) (k : Int) :
    (pv.shrunk k)._name = pv._name := rfl

theorem shrunk_root (pv : ParameterVector) (k : Int) :
    (pv.shrunk k)._root_uuid = pv._root_uuid := rfl

theorem shrunk_params (pv : ParameterVector) (k : Int) :
    (pv.shrunk k)._params = pv._params.take (sliceStart pv._params.length k) := rfl

theorem extended_name (pv : ParameterVector) (k : Int) :
    (pv.extended k)._name = pv._name := rfl

theorem extended_root (pv : ParameterVector) (k : Int) :
    (pv.extended k)._root_uuid = pv._root_uuid := rfl

theorem extended_params (pv : ParameterVector) (k : Int) :
    (pv.extended k)._params = pv._params ++ pv.grown k := rfl

theorem sliceStart_neg (L : Nat) (k : Int) (hk : k < 0) :
    sliceStart L k = ((L : Int) + k).toNat := by
  unfold sliceStart
  rw [if_pos hk]

theorem sliceStart_nonneg (L : Nat) (k : Int) (hk : 0 ≤ k) :
    sliceStart L k = min k.toNat L := by
  unfold sliceStart
  rw [if_neg (by omega)]

theorem initElems_length (name : String) (root : Nat) (length : Int) :
    (initElems name root length).length = length.toNat := by
  simp [initElems]

theorem initElems_getElem (name : String) (root : Nat) (length : Int) (i : Nat)
    (hi : i < (initElems name root length).length) :
    (initElems name root length)[i] = ⟨name, i, root + i⟩ := by
  unfold initElems at hi ⊢
  rw [List.getElem_map, List.getElem_range]

theorem grown_length (pv : ParameterVector) (length : Int) :
    (pv.grown length).length = length.toNat - pv._params.length := by
  simp [ParameterVector.grown]

theorem grown_getElem (pv : ParameterVector) (length : Int) (j : Nat)
    (hj : j < (pv.grown length).length) :
    (pv.grown length)[j] =
      ⟨pv._name, pv._params.length + j, pv._root_uuid + (pv._params.length + j)⟩ := by
  unfold ParameterVector.grown at hj ⊢
  rw [List.getElem_map, List.getElem_range']
  simp

/-! ### The determinism invariant is preserved -/

theorem init_valid {name : String} {root : Nat} {length : Int} {pv : ParameterVector}
    (h : ParameterVector.init name root length = some pv) : Valid pv := by
  obtain ⟨hn, hr, hp, hall⟩ := init_some h
  intro i hi
  have hi2 : i < (initElems name root length).length := by rw [← hp]; exact hi
  have hi' : i < length.toNat := by rw [initElems_length] at hi2; exact hi2
  rw [hr, getElem_congr hp hi hi2, initElems_getElem]
  exact ⟨rfl, rfl, hall i hi'⟩

theorem resize_valid {pv : ParameterVector} {length : Int} {pv' : ParameterVector}
    (hv : Valid pv) (h : pv.resize length = some pv') : Valid pv' := by
  by_cases hgt : (pv._params.length : Int) < length
  · obtain ⟨hn, hr, hp, hall⟩ := resize_grow_some hgt h
    intro i hi
    have hi2 : i < (pv._params ++ pv.grown length).length := by rw [← hp]; exact hi
    rw [hr, getElem_congr hp hi hi2]
    by_cases hiL : i < pv._params.length
    · rw [List.getElem_append_left hiL]
      exact hv i hiL
    · have hg : (pv.grown length).length = length.toNat - pv._params.length :=
        grown_length pv length
      have hi3 : i < pv._params.length + (pv.grown length).length := by
        simpa using hi2
      rw [List.getElem_append_right (by omega), grown_getElem]
      have hLj : pv._params.length + (i - pv._params.length) = i := by omega
      rw [hLj]
      exact ⟨rfl, rfl, hall i (by omega) (by omega)⟩
  · have heq := @resize_shrink_eq pv length (by omega)
    rw [h] at heq
    have hpv := Option.some_inj.mp heq
    have hp : pv'._params = pv._params.take (sliceStart pv._params.length length) := by
      rw [hpv, shrunk_params]
    have hr : pv'._root_uuid = pv._root_uuid := by
      rw [hpv, shrunk_root]
    intro i hi
    have hi2 : i < (pv._params.take (sliceStart pv._params.length length)).length := by
      rw [← hp]; exact hi
    have hiL : i < pv._params.length := by
      simp only [List.length_take] at hi2; omega
    rw [hr, getElem_congr hp hi hi2, List.getElem_take]
    exact hv i hiL

theorem reachable_valid {pv : ParameterVector} (h : Reachable pv) : Valid pv := by
  induction h with
  | construct name root length pv hnn hinit => exact init_valid hinit
  | resize pv length pv' hre hnn hres ih => exact resize_valid ih hres

theorem getItem_of_lt (pv : ParameterVector) (i : Nat) (h : i < pv._params.length) :
    pv.getItem (i : Int) = some pv._params[i] := by
  unfold ParameterVector.getItem
  have h0 : ¬ ((i : Int) < 0) := by omega
  simp only [h0, if_false, Int.natCast_nonneg, if_true, Int.toNat_natCast]
  rw [List.get?_eq_getElem?, List.getElem?_eq_getElem h]

/-! ### The claims -/

/-- C1: for every sequence constructed with any name and non-negative length,
after any sequence of `resize` calls with non-negative arguments, the element
at every in-range index `i` has identity `root_identity + i`. -/
theorem identity_deterministic (pv : ParameterVector) (h : Reachable pv)
    (i : Nat) (hi : i < pv.len) :
    ∃ e, pv.getItem (i : Int) = some e ∧ e.identity = pv._root_uuid + i := by
  have hv := reachable_valid h
  have hi' : i < pv._params.length := hi
  exact ⟨pv._params[i], getItem_of_lt pv i hi', (hv i hi').1⟩

/-- Witness for C1 at the vector `ParameterVector.init "theta" 7 3` and
index `1`. -/
theorem identity_deterministic_witness :
    ∃ e, pvW.getItem ((1 : Nat) : Int) = some e ∧ e.identity = pvW._root_uuid + 1 :=
  identity_deterministic pvW
    (Reachable.construct "theta" 7 3 pvW (by decide) (by rfl)) 1 (by decide)

/-- C2: shrink/grow round-trip: on a reachable sequence of length `L`, capture
`e = get(k)` with `k < L`, `resize(m)` with `m <= k`, then `resize(L)`; the
element now at `k` has the same identity as `e`. -/
theorem shrink_grow_round_trip (pv : ParameterVector) (h : Reachable pv)
    (k m : Nat) (hk : k < pv.len) (hm : m ≤ k)
    (e : ParameterVectorElement) (he : pv.getItem (k : Int) = some e) :
    ∃ pv1 pv2 e2, pv.resize (m : Int) = some pv1 ∧
      pv1.resize (pv.len : Int) = some pv2 ∧
      pv2.getItem (k : Int) = some e2 ∧ e2.identity = e.identity := by
  have hv := reachable_valid h
  have hkL : k < pv._params.length := hk
  have heq := getItem_of_lt pv k hkL
  rw [he] at heq
  have he2 : e = pv._params[k] := Option.some_inj.mp heq
  have hss : sliceStart pv._params.length (m : Int) = m := by
    rw [sliceStart_nonneg _ _ (by omega), Int.toNat_natCast]
    omega
  have h1 : pv.resize (m : Int) = some (pv.shrunk (m : Int)) :=
    resize_shrink_eq (by omega)
  have hp1 : (pv.shrunk (m : Int))._params = pv._params.take m := by
    rw [shrunk_params, hss]
  have hlen1 : (pv.shrunk (m : Int))._params.length = m := by
    rw [hp1, List.length_take]
    omega
  have hgt : ((pv.shrunk (m : Int))._params.length : Int) < ((pv.len : Nat) : Int) := by
    rw [hlen1, len_eq]
    omega
  have hall : ∀ i, (pv.shrunk (m : Int))._params.length ≤ i →
      i < ((pv.len : Nat) : Int).toNat →
      (pv.shrunk (m : Int))._root_uuid + i < UUID_SPACE := by
    intro i hle hlt
    rw [Int.toNat_natCast, len_eq] at hlt
    rw [shrunk_root]
    exact (hv i hlt).2.2
  have h2 : (pv.shrunk (m : Int)).resize (pv.len : Int)
      = some ((pv.shrunk (m : Int)).extended (pv.len : Int)) :=
    resize_grow_succeeds hgt hall
  have hglen : ((pv.shrunk (m : Int)).grown (pv.len : Int)).length
      = pv._params.length - m := by
    rw [grown_length, hlen1, Int.toNat_natCast, len_eq]
  have hplen2 : ((pv.shrunk (m : Int)).extended (pv.len : Int))._params.length
      = pv._params.length := by
    rw [extended_params, List.length_append, hlen1, hglen]
    omega
  have hk2 : k < ((pv.shrunk (m : Int)).extended (pv.len : Int))._params.length := by
    rw [hplen2]
    exact hkL
  have hget := getItem_of_lt _ k hk2
  have hk3 : k < ((pv.shrunk (m : Int))._params
      ++ (pv.shrunk (m : Int)).grown (pv.len : Int)).length := by
    rw [← extended_params]
    exact hk2
  have hmk : (pv.shrunk (m : Int))._params.length ≤ k := by
    rw [hlen1]
    omega
  have hcomp : ((pv.shrunk (m : Int)).extended (pv.len : Int))._params[k]
      = ⟨pv._name, k, pv._root_uuid + k⟩ := by
    rw [getElem_congr (extended_params _ _) hk2 hk3,
      List.getElem_append_right hmk, grown_getElem, shrunk_name, shrunk_root, hlen1]
    have hix : m + (k - m) = k := by omega
    rw [hix]
  refine ⟨pv.shrunk (m : Int), (pv.shrunk (m : Int)).extended (pv.len : Int),
    ⟨pv._name, k, pv._root_uuid + k⟩, h1, h2, ?_, ?_⟩
  · rw [hget, hcomp]
  · show pv._root_uuid + k = e.identity
    rw [he2]
    exact ((hv k hkL).1).symm

/-- Witness for C2 at the vector `ParameterVector.init "theta" 7 3` with
`k = 2`, `m = 1`. -/
theorem shrink_grow_round_trip_witness :
    ∃ pv1 pv2 e2, pvW.resize ((1 : Nat) : Int) = some pv1 ∧
      pv1.resize (pvW.len : Int) = some pv2 ∧
      pv2.getItem ((2 : Nat) : Int) = some e2 ∧
      e2.identity = (⟨"theta", 2, 9⟩ : ParameterVectorElement).identity :=
  shrink_grow_round_trip pvW
    (Reachable.construct "theta" 7 3 pvW (by decide) (by rfl))
    2 1 (by decide) (by decide) ⟨"theta", 2, 9⟩ (by rfl)

/-- C7: resizing a sequence to its current length changes nothing observable:
`resize` succeeds and returns a state equal to the original, so the length and
the element (with its identity) at every index are unchanged. -/
theorem resize_noop (pv : ParameterVector) :
    pv.resize (pv.len : Int) = some pv := by
  have h1 : sliceStart pv._params.length (pv._params.length : Int) = pv._params.length := by
    rw [sliceStart_nonneg _ _ (by omega), Int.toNat_natCast]
    omega
  show pv.resize (pv._params.length : Int) = some pv
  rw [resize_shrink_eq le_rfl]
  unfold ParameterVector.shrunk
  rw [h1, List.take_length]

/-- C8: after every `resize(n)` with non-negative `n` on a reachable sequence,
the element at every index `i < n` carries stored index `i` (dense, no
holes). -/
theorem index_monotonic (pv pv' : ParameterVector) (h : Reachable pv) (n : Int)
    (_hn : 0 ≤ n) (hres : pv.resize n = some pv') (i : Nat) (hi : i < pv'.len) :
    ∃ e, pv'.getItem (i : Int) = some e ∧ e.index = i := by
  have hv := resize_valid (reachable_valid h) hres
  have hi' : i < pv'._params.length := hi
  exact ⟨pv'._params[i], getItem_of_lt pv' i hi', (hv i hi').2.1⟩

/-- Witness for C8: resize `ParameterVector.init "theta" 7 3` to length 5 and
look at index 4. -/
theorem index_monotonic_witness :
    ∃ e, pvW5.getItem ((4 : Nat) : Int) = some e ∧ e.index = 4 :=
  index_monotonic pvW pvW5
    (Reachable.construct "theta" 7 3 pvW (by decide) (by rfl))
    5 (by decide) (by rfl) 4 (by decide)

/-- C9 counterexample: with `root_identity = 2^128 - 1` and index `1` the sum
leaves the 128-bit space; element creation does not succeed with a wrapped
identity — it fails (the stdlib `UUID` constructor raises `ValueError`), and
so does construction of a two-element vector with that root. -/
theorem identity_wrapping_counterexample :
    mkElement "x" (2 ^ 128 - 1) 1 = none ∧
    ParameterVector.init "x" (2 ^ 128 - 1) 2 = none :=
  ⟨by rfl, by rfl⟩

/-- C9 (amended): the identity is the exact sum `root_identity + index`, with
no wrapping: when the sum fits the 128-bit space the element is created with
identity `root + i`, and when `root + i >= 2^128` element creation fails. -/
theorem identity_exact_sum (o : String) (root i : Nat) :
    (root + i < UUID_SPACE → mkElement o root i = some ⟨o, i, root + i⟩) ∧
    (UUID_SPACE ≤ root + i → mkElement o root i = none) := by
  constructor
  · intro h
    exact mkElement_eq_some.mpr ⟨h, rfl⟩
  · intro h
    unfold mkElement UUID
    rw [if_neg (by omega)]
    rfl

/-- Witness for C9 (amended), at a small root and at the overflow boundary. -/
theorem identity_exact_sum_witness :
    mkElement "x" 7 1 = some ⟨"x", 1, 8⟩ ∧ mkElement "y" (2 ^ 128 - 1) 2 = none :=
  ⟨(identity_exact_sum "x" 7 1).1 (by decide),
   (identity_exact_sum "y" (2 ^ 128 - 1) 2).2 (by decide)⟩

/-- C10: `resize` with a negative argument `n` does not raise: it deletes the
last `min |n| L` elements (Python negative-slice deletion), leaving length
`max (L + n) 0` with the remaining prefix unchanged. -/
theorem resize_negative (pv : ParameterVector) (n : Int) (hn : n < 0) :
    ∃ pv', pv.resize n = some pv' ∧
      pv'.len = ((pv.len : Int) + n).toNat ∧
      pv'._params = pv._params.take (pv.len - min n.natAbs pv.len) := by
  refine ⟨pv.shrunk n, @resize_shrink_eq pv n (by omega), ?_, ?_⟩
  · show (pv._params.take (sliceStart pv._params.length n)).length = _
    rw [List.length_take, sliceStart_neg _ _ hn, len_eq]
    omega
  · show pv._params.take (sliceStart pv._params.length n) = _
    rw [sliceStart_neg _ _ hn, len_eq]
    congr 1
    omega

/-- Witness for C10: `resize(-2)` on a three-element vector. -/
theorem resize_negative_witness :
    ∃ pv', pvW.resize (-2) = some pv' ∧
      pv'.len = ((pvW.len : Int) + (-2)).toNat ∧
      pv'._params = pvW._params.take (pvW.len - min (Int.natAbs (-2)) pvW.len) :=
  resize_negative pvW (-2) (by decide)

/-- C3 counterexample: a serialized state whose per-element payload carries an
identity different from `root_identity + index`; reconstruction replays the
payload identity `5` instead of re-deriving `7 + 0`. -/
theorem setstate_rederivation_counterexample :
    (ParameterVector.setState ("x", [⟨"x", 0, 5⟩], 7)).getItem 0
      = some ⟨"x", 0, 5⟩ ∧
    ¬ ((5 : Nat) = (ParameterVector.setState ("x", [⟨"x", 0, 5⟩], 7))._root_uuid + 0) :=
  ⟨by rfl, by decide⟩

/-- C3 (amended): `__setstate__` replays the stored per-element payloads
verbatim — the reconstructed element list IS the payload list, identities
included, with nothing re-derived from the stored root identity; consequently
the reconstructed identities equal `root_identity + index` exactly when the
state was produced by `__getstate__` of a reachable vector, whose round-trip
reproduces the vector and its derived identities. -/
theorem setstate_replays_payload (s : String × List ParameterVectorElement × Nat)
    (pv : ParameterVector) (h : Reachable pv) :
    (ParameterVector.setState s)._params = s.2.1 ∧
    ParameterVector.setState pv.getState = pv ∧
    ∀ i : Nat, i < pv.len →
      ∃ e, (ParameterVector.setState pv.getState).getItem (i : Int) = some e ∧
        e.identity = (ParameterVector.setState pv.getState)._root_uuid + i := by
  refine ⟨rfl, rfl, ?_⟩
  intro i hi
  have hv := reachable_valid h
  have hi' : i < pv._params.length := hi
  exact ⟨pv._params[i], getItem_of_lt pv i hi', (hv i hi').1⟩

/-- Witness for C3 (amended), at an arbitrary payload and at the vector
`ParameterVector.init "theta" 7 3`. -/
theorem setstate_replays_payload_witness :
    (ParameterVector.setState ("y", [⟨"y", 0, 3⟩], 3))._params = [⟨"y", 0, 3⟩] ∧
    ParameterVector.setState pvW.getState = pvW ∧
    ∀ i : Nat, i < pvW.len →
      ∃ e, (ParameterVector.setState pvW.getState).getItem (i : Int) = some e ∧
        e.identity = (ParameterVector.setState pvW.getState)._root_uuid + i :=
  setstate_replays_payload ("y", [⟨"y", 0, 3⟩], 3) pvW
    (Reachable.construct "theta" 7 3 pvW (by decide) (by rfl))

/-- C4 counterexample: `Construct("x", -1)` does not fail — it returns an
empty vector — and `resize(-1)` on a three-element vector does not fail
either. -/
theorem negative_length_counterexample :
    ParameterVector.init "x" 7 (-1) ≠ none ∧ pvW.resize (-1) ≠ none :=
  ⟨by decide, by decide⟩

/-- C4 (amended): negative lengths are not rejected.  Construction with a
negative length succeeds with an empty vector (`range(length)` is empty), and
`resize` with a negative `n` succeeds, deleting trailing elements by Python
slice semantics so the length becomes `max (L + n) 0`. -/
theorem negative_length_accepted (name : String) (root : Nat)
    (pv : ParameterVector) (n : Int) (hn : n < 0) :
    ParameterVector.init name root n = some ⟨name, root, []⟩ ∧
    ∃ pv', pv.resize n = some pv' ∧ pv'.len = ((pv.len : Int) + n).toNat := by
  constructor
  · unfold ParameterVector.init
    rw [Int.toNat_of_nonpos (by omega)]
    rfl
  · refine ⟨pv.shrunk n, @resize_shrink_eq pv n (by omega), ?_⟩
    show (pv._params.take (sliceStart pv._params.length n)).length = _
    rw [List.length_take, sliceStart_neg _ _ hn, len_eq]
    omega

/-- Witness for C4 (amended) at `length = -1`. -/
theorem negative_length_accepted_witness :
    ParameterVector.init "x" 7 (-1) = some ⟨"x", 7, []⟩ ∧
    ∃ pv', pvW.resize (-1) = some pv' ∧ pv'.len = ((pvW.len : Int) + (-1)).toNat :=
  negative_length_accepted "x" 7 pvW (-1) (by decide)

/-- C5 counterexample: `-1` is not in `[0, len)`, yet `get(-1)` on a
three-element vector does not fail — Python negative indexing returns the
last element. -/
theorem get_range_counterexample :
    ¬ (0 ≤ (-1 : Int) ∧ (-1 : Int) < (pvW.len : Int)) ∧
    pvW.getItem (-1) = some ⟨"theta", 2, 9⟩ :=
  ⟨by decide, by rfl⟩

/-- C5 (amended): `get(i)` fails iff `i` is outside `[-len, len)` (Python list
indexing): an `i` in `[0, len)` returns the element at position `i`, a
negative `i` in `[-len, 0)` returns the element at position `len + i`; the
access is a pure function of the state, so it has no side effects. -/
theorem get_in_range (pv : ParameterVector) (i : Int) :
    (pv.getItem i = none ↔ i < -(pv.len : Int) ∨ (pv.len : Int) ≤ i) ∧
    (0 ≤ i → i < (pv.len : Int) → pv.getItem i = pv._params.get? i.toNat) ∧
    (i < 0 → -(pv.len : Int) ≤ i →
      pv.getItem i = pv._params.get? (i + pv.len).toNat) := by
  simp only [len_eq]
  unfold ParameterVector.getItem
  by_cases h0 : i < 0
  · simp only [if_pos h0]
    by_cases h1 : 0 ≤ i + (pv._params.length : Int)
    · rw [if_pos h1]
      refine ⟨by rw [List.get?_eq_none]; omega, ?_, ?_⟩
      · intro hc1 hc2
        exact absurd hc1 (by omega)
      · intro hc1 hc2
        rfl
    · rw [if_neg h1]
      refine ⟨⟨fun hc => by omega, fun hc => rfl⟩, ?_, ?_⟩
      · intro hc1 hc2
        exact absurd hc1 (by omega)
      · intro hc1 hc2
        exact absurd hc2 (by omega)
  · simp only [if_neg h0]
    rw [if_pos (by omega)]
    refine ⟨by rw [List.get?_eq_none]; omega, ?_, ?_⟩
    · intro hc1 hc2
      rfl
    · intro hc1 hc2
      exact absurd hc1 h0

/-- Witness for C5 (amended): `get(-1)` on the three-element vector `pvW`
returns the element at position `len - 1`. -/
theorem get_in_range_witness :
    pvW.getItem (-1) = pvW._params.get? (((-1) : Int) + pvW.len).toNat :=
  (get_in_range pvW (-1)).2.2 (by decide) (by decide)

/-- C6: after a successful `resize(n)` with `n >= 0`, the length is `n`; when
growing, the new elements are exactly those appended for the indices
`len .. n-1` in ascending index order; when shrinking, the survivors are the
unchanged prefix of the old list, so their identities are unaltered. -/
theorem resize_postcondition (pv pv' : ParameterVector) (n : Int) (hn : 0 ≤ n)
    (h : pv.resize n = some pv') :
    pv'.len = n.toNat ∧
    ((pv.len : Int) < n →
      pv'._params = pv._params ++
        (List.range' pv.len (n.toNat - pv.len)).map
          (fun i => ⟨pv._name, i, pv._root_uuid + i⟩)) ∧
    (n ≤ (pv.len : Int) → pv'._params = pv._params.take n.toNat) := by
  simp only [len_eq]
  by_cases hgt : (pv._params.length : Int) < n
  · obtain ⟨hname, hroot, hp, hall⟩ := resize_grow_some hgt h
    refine ⟨?_, ?_, ?_⟩
    · rw [hp, List.length_append, grown_length]
      omega
    · intro hc
      rw [hp]
      rfl
    · intro hc
      exact absurd hc (by omega)
  · have heq := @resize_shrink_eq pv n (by omega)
    rw [h] at heq
    have hpv := Option.some_inj.mp heq
    have hss : sliceStart pv._params.length n = n.toNat := by
      rw [sliceStart_nonneg _ _ hn]
      omega
    refine ⟨?_, ?_, ?_⟩
    · rw [hpv, shrunk_params, List.length_take, hss]
      omega
    · intro hc
      exact absurd hc (by omega)
    · intro hc
      rw [hpv, shrunk_params, hss]

/-- Witness for C6: `resize(5)` on the three-element vector `pvW`. -/
theorem resize_postcondition_witness :
    pvW5.len = (5 : Int).toNat ∧
    ((pvW.len : Int) < 5 →
      pvW5._params = pvW._params ++
        (List.range' pvW.len ((5 : Int).toNat - pvW.len)).map
          (fun i => ⟨pvW._name, i, pvW._root_uuid + i⟩)) ∧
    ((5 : Int) ≤ (pvW.len : Int) → pvW5._params = pvW._params.take (5 : Int).toNat) :=
  resize_postcondition pvW pvW5 5 (by decide) (by rfl)

end ParameterVectorSpec
